import Mathlib

/-!
Shallow embedding of the order-scraping pipeline's core
(liao084/web-scraper-project): the sqlite-backed record store
(database.py / database_async.py), the page-fetch retry loop and JSON
parser (collector_curl_cffi.py), the response decoder (collector_async.py)
and the screenshot worker pool's driver regeneration (screenshotter.py),
together with theorems settling the specification's claims about them.
-/

namespace Scraper

/-! ## Data model (database.py / database_async.py)

A row of the single `orders` table.  The `status` column is TEXT in the
schema, with values 'pending', 'running', 'completed', 'failed'; it is kept
as a `String` here.  `id` is the INTEGER PRIMARY KEY AUTOINCREMENT column.
All other columns are nullable TEXT and are kept as `Option String`.
-/

structure Row where
  id : Nat
  order_id : Option String
  item_title : Option String
  item_sku_title : Option String
  order_status : Option String
  sub_order_desc : Option String
  total_price : Option String
  creation_time : Option String
  payment_time : Option String
  shipping_time : Option String
  order_detail_url : Option String
  screenshot_path : Option String
  status : String
deriving DecidableEq, Repr

/-- The database state: the rows of the `orders` table in rowid order, plus
the next AUTOINCREMENT value for the `id` column. -/
structure Store where
  rows : List Row
  nextId : Nat
deriving DecidableEq, Repr

/-- One element of the `orders_data` batch passed to `insert_orders`: the
values produced by the ten `o.get(...)` lookups in the source (a missing
dictionary key yields Python `None`, i.e. `none`). -/
structure OrderDict where
  order_id : Option String
  item_title : Option String
  item_sku_title : Option String
  order_status : Option String
  sub_order_desc : Option String
  total_price : Option String
  creation_time : Option String
  payment_time : Option String
  shipping_time : Option String
  order_detail_url : Option String
deriving DecidableEq, Repr

/-- The row built by the INSERT statement of either `insert_orders` variant:
the ten supplied columns, the literal status 'pending', no screenshot_path
(the column is absent from the INSERT's column list, hence NULL), and a
fresh AUTOINCREMENT id. -/
def mkRow (nid : Nat) (o : OrderDict) : Row :=
  { id := nid
    order_id := o.order_id
    item_title := o.item_title
    item_sku_title := o.item_sku_title
    order_status := o.order_status
    sub_order_desc := o.sub_order_desc
    total_price := o.total_price
    creation_time := o.creation_time
    payment_time := o.payment_time
    shipping_time := o.shipping_time
    order_detail_url := o.order_detail_url
    screenshot_path := none
    status := "pending" }

/-- SQL equality as used by UNIQUE constraints: two values collide only when
both are non-NULL and equal (SQLite treats every NULL as distinct from every
other value, including another NULL). -/
def sqlEq (a b : Option String) : Bool :=
  match a, b with
  | some x, some y => x == y
  | _, _ => false

/-- Uniqueness conflict of database.py's schema: `order_id TEXT NOT NULL
UNIQUE`. -/
def hitOrderId (r : Row) (o : OrderDict) : Bool :=
  sqlEq r.order_id o.order_id

/-- Uniqueness conflict of database_async.py's schema:
`UNIQUE(order_id, sub_order_desc)`. -/
def hitComposite (r : Row) (o : OrderDict) : Bool :=
  sqlEq r.order_id o.order_id && sqlEq r.sub_order_desc o.sub_order_desc

/-- One INSERT OR IGNORE of the prepared statement, parameterized by the
schema's uniqueness conflict test.  OR IGNORE silently skips the row on any
constraint violation: a NULL `order_id` (the column is NOT NULL in both
schemas) or a uniqueness hit.  Returns the store together with the number of
rows changed by this statement (0 or 1), which is what both
`cursor.rowcount` accumulation and `total_changes` observe. -/
def insertOne (hit : Row → OrderDict → Bool) (s : Store) (o : OrderDict) :
    Store × Nat :=
  if o.order_id = none then (s, 0)
  else if s.rows.any (fun r => hit r o) then (s, 0)
  else ({ rows := s.rows ++ [mkRow s.nextId o], nextId := s.nextId + 1 }, 1)

/-- `executemany` of the INSERT OR IGNORE statement over the batch, running
the statement once per element in order and summing the per-statement change
counts. -/
def execMany (hit : Row → OrderDict → Bool) (s : Store) :
    List OrderDict → Store × Nat
  | [] => (s, 0)
  | o :: rest =>
      let r := insertOne hit s o
      let r2 := execMany hit r.1 rest
      (r2.1, r.2 + r2.2)

namespace database

/-- database.py `insert_orders` (lines 65-95): executemany of INSERT OR
IGNORE keyed on `order_id` alone, returning `cursor.rowcount`, which after
`executemany` is the sum of the rows changed by each statement. -/
def insert_orders (s : Store) (orders_data : List OrderDict) : Nat × Store :=
  let r := execMany hitOrderId s orders_data
  (r.2, r.1)

end database

namespace database_async

/-- database_async.py `insert_orders` (lines 42-80): executemany of INSERT
OR IGNORE keyed on the composite `(order_id, sub_order_desc)`, returning
`changes_after - changes_before` where the two are the connection's
`total_changes` counter read before and after the batch (the connection is
fresh, so the counter starts at 0 and counts exactly this batch's
changes). -/
def insert_orders (s : Store) (orders_data : List OrderDict) : Nat × Store :=
  let changes_before : Nat := 0
  let r := execMany hitComposite s orders_data
  let changes_after := changes_before + r.2
  (changes_after - changes_before, r.1)

end database_async

/-! ## Claiming a pending task -/

/-- Status of the row with a given `id`, as observed by a
`WHERE id = ?` lookup (first row in rowid order with that id). -/
def statusOf (s : Store) (id : Nat) : Option String :=
  (s.rows.find? (fun r => r.id == id)).map (fun r => r.status)

/-- Number of rows currently in status 'pending'. -/
def pendingCount (s : Store) : Nat :=
  s.rows.countP (fun r => r.status == "pending")

/-- Effect of `UPDATE orders SET status = ? WHERE id = ?`: every row whose
`id` column matches gets the new status. -/
def setStatus (rows : List Row) (id : Nat) (st : String) : List Row :=
  rows.map (fun r => if r.id == id then { r with status := st } else r)

namespace database

/-- database.py `fetch_pending_task` (lines 98-125), fault-free path: inside
one BEGIN EXCLUSIVE transaction, SELECT the first row with
status = 'pending' (LIMIT 1 in rowid order); if present, UPDATE its status
to 'running', commit, and return the row as read; otherwise commit and
return None.  The whole select-then-update is a single atomic step. -/
def fetch_pending_task (s : Store) : Option Row × Store :=
  match s.rows.find? (fun r => r.status == "pending") with
  | some task =>
      (some task, { s with rows := setStatus s.rows task.id "running" })
  | none => (none, s)

/-- Points at which the storage layer can raise inside the exclusive
transaction of `fetch_pending_task`: during the SELECT, during the UPDATE,
or during the commit. -/
inductive DbFault where
  | atSelect
  | atUpdate
  | atCommit
deriving DecidableEq, Repr

/-- database.py `fetch_pending_task` with an injected storage-layer fault
(the `except Exception` arm, lines 122-125): any exception raised before the
commit completes triggers `conn.rollback()`, which discards the uncommitted
UPDATE, and the function returns None.  `fault = none` is the fault-free
run.  The async variant (database_async.py lines 94-108) behaves the same
for `aiosqlite.Error` faults: it returns None and the closing connection
rolls back the uncommitted transaction. -/
def fetch_pending_task_faulty (s : Store) (fault : Option DbFault) :
    Option Row × Store :=
  if fault = some DbFault.atSelect then (none, s)
  else
    match s.rows.find? (fun r => r.status == "pending") with
    | some task =>
        if fault = some DbFault.atUpdate then (none, s)
        else if fault = some DbFault.atCommit then (none, s)
        else (some task, { s with rows := setStatus s.rows task.id "running" })
    | none => (none, s)

/-- W sequential invocations of the atomic `fetch_pending_task` (the
serialization of W concurrent claimers, each claim being one exclusive
transaction).  Returns the per-caller results and the final store. -/
def runClaimers (s : Store) : Nat → List (Option Row) × Store
  | 0 => ([], s)
  | n + 1 =>
      let r := fetch_pending_task s
      let rest := runClaimers r.2 n
      (r.1 :: rest.1, rest.2)

end database

/-- The message dictionary placed on the results queue and consumed by
`update_task_status_from_queue`: the `task_id`, `status` and
`screenshot_path` entries read back with `.get` (absent keys give None). -/
structure ResultMsg where
  task_id : Option Nat
  status : Option String
  screenshot_path : Option String
deriving DecidableEq, Repr

namespace database

/-- database.py `update_task_status_from_queue` (lines 128-150): if the
result's status is 'completed', set status and screenshot_path on the rows
matching the task id; if 'failed', set status 'failed'; any other status
leaves the table untouched. -/
def update_task_status_from_queue (s : Store) (result : ResultMsg) : Store :=
  if result.status = some "completed" then
    { s with
      rows := s.rows.map (fun r =>
        if some r.id = result.task_id then
          { r with status := "completed",
                   screenshot_path := result.screenshot_path }
        else r) }
  else if result.status = some "failed" then
    { s with
      rows := s.rows.map (fun r =>
        if some r.id = result.task_id then { r with status := "failed" }
        else r) }
  else s

end database

namespace database_async

/-- Phase of one async claimer running database_async.py's
`fetch_pending_task` (lines 83-108).  Under Python sqlite3's
`isolation_level` semantics the implicit BEGIN EXCLUSIVE is only issued
before data-modification statements, so the SELECT executes in autocommit
mode outside any transaction, and only the UPDATE runs (and commits) under
the exclusive lock.  The call therefore decomposes into two separately
atomic phases: the SELECT, and the UPDATE-and-return. -/
inductive ClaimPhase where
  | ready
  | selected (task : Row)
  | finished (res : Option Row)
deriving DecidableEq, Repr

/-- A store shared by several concurrent async claimers, each with its own
connection, together with each claimer's phase. -/
structure ClaimSystem where
  store : Store
  workers : List ClaimPhase
deriving DecidableEq, Repr

/-- Execute the next atomic phase of worker `i` of the async
`fetch_pending_task`: its SELECT of the first pending row (taking and
releasing only a read lock), or its exclusive UPDATE of the previously
selected row's status to 'running' followed by returning that row. -/
def claimStep (sys : ClaimSystem) (i : Nat) : ClaimSystem :=
  match sys.workers[i]? with
  | none => sys
  | some ClaimPhase.ready =>
      match sys.store.rows.find? (fun r => r.status == "pending") with
      | some task =>
          { sys with workers := sys.workers.set i (ClaimPhase.selected task) }
      | none =>
          { sys with workers := sys.workers.set i (ClaimPhase.finished none) }
  | some (ClaimPhase.selected task) =>
      { store := { sys.store with
                   rows := setStatus sys.store.rows task.id "running" },
        workers := sys.workers.set i (ClaimPhase.finished (some task)) }
  | some (ClaimPhase.finished _) => sys

/-- Run a schedule: the interleaving is an arbitrary sequence of worker
indices, each entry executing that worker's next atomic phase. -/
def runSchedule (sys : ClaimSystem) (sched : List Nat) : ClaimSystem :=
  sched.foldl claimStep sys

end database_async

/-! ## The screenshot dispatcher's protocol over the store

screenshotter.py drives the store through exactly these operations: the
collector inserts batches (insert_orders); each worker loops claiming one
pending task (fetch_pending_task) and, for every claimed task, eventually
puts exactly one result message on the results queue carrying that task's
id and status 'completed' (with the screenshot path) or 'failed' (lines
149 and 190); the writer thread applies each message via
update_task_status_from_queue.  No other store mutation exists in the
pipeline.
-/

/-- Store plus the ids handed out by `fetch_pending_task` whose result
message has not yet been written back. -/
structure DispatchState where
  store : Store
  claimed : List Nat
deriving DecidableEq, Repr

/-- One operation of the screenshot pipeline on the shared store. -/
inductive DispatchOp where
  | insert (batch : List OrderDict)
  | claim
  | resolve (taskId : Nat) (ok : Bool) (path : Option String)
deriving DecidableEq, Repr

/-- Apply one pipeline operation.  A resolve is only meaningful for a
claimed-and-unresolved task id, because screenshot_worker builds its result
message from the task returned by `fetch_pending_task` and enqueues exactly
one message per claimed task; a resolve for any other id does not occur in
the pipeline and is a no-op here. -/
def dispatchStep (st : DispatchState) (op : DispatchOp) : DispatchState :=
  match op with
  | DispatchOp.insert batch =>
      { st with store := (database.insert_orders st.store batch).2 }
  | DispatchOp.claim =>
      let r := database.fetch_pending_task st.store
      match r.1 with
      | some task => { store := r.2, claimed := task.id :: st.claimed }
      | none => { st with store := r.2 }
  | DispatchOp.resolve taskId ok path =>
      if taskId ∈ st.claimed then
        let msg : ResultMsg :=
          if ok then
            { task_id := some taskId, status := some "completed",
              screenshot_path := path }
          else
            { task_id := some taskId, status := some "failed",
              screenshot_path := none }
        { store := database.update_task_status_from_queue st.store msg,
          claimed := st.claimed.erase taskId }
      else st

/-- Run a sequence of pipeline operations. -/
def dispatchRun (st : DispatchState) (ops : List DispatchOp) : DispatchState :=
  ops.foldl dispatchStep st

/-- The dispatcher's state invariant: row ids are distinct (the id column is
the INTEGER PRIMARY KEY), every id is below the AUTOINCREMENT cursor, the
outstanding claims are distinct (each claim hands out a distinct row), and
every claimed-but-unresolved id denotes a row in status 'running'. -/
def DispatchInv (st : DispatchState) : Prop :=
  (st.store.rows.map Row.id).Nodup ∧
  (∀ r ∈ st.store.rows, r.id < st.store.nextId) ∧
  st.claimed.Nodup ∧
  (∀ id ∈ st.claimed, statusOf st.store id = some "running")

/-- The results of the claim operations performed along a run of pipeline
operations, in order. -/
def dispatchTrace (st : DispatchState) : List DispatchOp → List Row
  | [] => []
  | op :: rest =>
      let here : List Row :=
        match op with
        | DispatchOp.claim =>
            match (database.fetch_pending_task st.store).1 with
            | some task => [task]
            | none => []
        | _ => []
      here ++ dispatchTrace (dispatchStep st op) rest

/-! ## Response decoding (collector_async.py lines 62-69)

The raw response body may or may not be gzip-compressed.  The relevant
behavior of Python's `gzip.decompress` (external library, modeled): a body
that is a well-formed gzip stream decompresses to its payload; a body not
starting with the two gzip magic bytes 0x1f 0x8b raises `BadGzipFile`
("Not a gzipped file"); a body that starts with the magic bytes but is
truncated or corrupt raises a different exception (`EOFError` for a stream
ending before the end-of-stream marker, `zlib.error` for corrupt deflate
data) — not `BadGzipFile`.
-/

/-- The shapes of raw response bodies relevant to the decoder. -/
inductive RawBody where
  | gzipOf (payload : String)
  | plain (text : String)
  | corruptGzip
deriving DecidableEq, Repr

/-- Exceptions flowing through the decoder model. -/
inductive DecErr where
  | badGzipFile
  | eofError
deriving DecidableEq, Repr

/-- Modeled `gzip.decompress`. -/
def gzip_decompress : RawBody → Except DecErr String
  | RawBody.gzipOf payload => Except.ok payload
  | RawBody.plain _ => Except.error DecErr.badGzipFile
  | RawBody.corruptGzip => Except.error DecErr.eofError

/-- The body's bytes read as text, for the fallback branch. -/
def rawText : RawBody → String
  | RawBody.gzipOf _ => ""
  | RawBody.plain text => text
  | RawBody.corruptGzip => ""

/-- collector_async.py lines 62-67: `try: decompressed_body =
gzip.decompress(raw_body) except gzip.BadGzipFile: decompressed_body =
raw_body`.  Only `BadGzipFile` is caught; any other exception from the
decompression propagates out of this step. -/
def decode_response_body (raw_body : RawBody) : Except DecErr String :=
  match gzip_decompress raw_body with
  | Except.ok decompressed => Except.ok decompressed
  | Except.error e =>
      if e = DecErr.badGzipFile then Except.ok (rawText raw_body)
      else Except.error e

/-! ## Driver pool regeneration (screenshotter.py lines 85-117, 140-187) -/

/-- Maximum screenshots per WebDriver instance before it is destroyed and
rebuilt (screenshotter.py line 29). -/
def DRIVER_MAX_USE_COUNT : Nat := 50

/-- A WebDriver instance, identified so that "a fresh instance" is
expressible. -/
structure Driver where
  uid : Nat
deriving DecidableEq, Repr

/-- The pool holds (driver, use_count) pairs (screenshotter.py line 43). -/
abbrev DriverPool := List (Driver × Nat)

/-- The fatal-error adjustment of screenshot_worker lines 160-162: on a
fatal-looking error the use count is forced to the destruction threshold. -/
def fatalAdjust (use_count : Nat) (fatalDetected : Bool) : Nat :=
  if fatalDetected then DRIVER_MAX_USE_COUNT else use_count

/-- The finally block of screenshot_worker (lines 166-187): if the held
instance's use count has reached DRIVER_MAX_USE_COUNT it is destroyed
(`driver.quit()`) and `create_new_driver_instance` is attempted — on
success a fresh zero-count instance is put into the pool, on failure
(`create_new_driver_instance` returns None, line 116-117) nothing is put
back; below the threshold the held instance is returned with its count. -/
def returnOrRegen (pool : DriverPool) (driver : Driver) (use_count : Nat)
    (freshUid : Nat) (createSucceeds : Bool) : DriverPool :=
  if DRIVER_MAX_USE_COUNT ≤ use_count then
    if createSucceeds then pool ++ [(⟨freshUid⟩, 0)]
    else pool
  else pool ++ [(driver, use_count)]

/-! ## JSON payloads and the order parser (collector_curl_cffi.py 129-164)

The values reached by the parser: JSON null, strings, arrays and objects
(numbers do not occur on the paths the parser touches and are omitted).
A Python dict is an association list with distinct keys.
-/

inductive JVal where
  | jnull
  | jstr (s : String)
  | jarr (xs : List JVal)
  | jobj (fields : List (String × JVal))

/-- A decoded top-level JSON response object. -/
abbrev JObj := List (String × JVal)

/-- Python `dict.get(k)`: the value, or None when the key is absent. -/
def jlookup (fields : JObj) (k : String) : Option JVal :=
  (fields.find? (fun kv => kv.1 == k)).map (fun kv => kv.2)

/-- Python truthiness of the JSON values: None, empty string, empty list
and empty dict are falsy. -/
def truthy : JVal → Bool
  | JVal.jnull => false
  | JVal.jstr s => !(s == "")
  | JVal.jarr xs => !xs.isEmpty
  | JVal.jobj fs => !fs.isEmpty

/-- Python `k in v` for the shapes at hand: key membership for a dict,
element membership for a list, substring for a string (never reached on a
None because the source short-circuits on truthiness first). -/
def containsKey (v : JVal) (k : String) : Bool :=
  match v with
  | JVal.jobj fs => fs.any (fun kv => kv.1 == k)
  | JVal.jarr xs => xs.any (fun x =>
      match x with
      | JVal.jstr s => s == k
      | _ => false)
  | JVal.jstr s => 2 ≤ (s.splitOn k).length
  | JVal.jnull => false

/-- Python exceptions observable from the parser and fetch loop. -/
inductive PyExc where
  | typeError
  | indexError
  | attributeError
  | keyError
deriving DecidableEq, Repr

/-- Python subscript `v[k]` with a string key. -/
def pySubscriptKey (v : JVal) (k : String) : Except PyExc JVal :=
  match v with
  | JVal.jobj fs =>
      match jlookup fs k with
      | some x => Except.ok x
      | none => Except.error PyExc.keyError
  | JVal.jarr _ => Except.error PyExc.typeError
  | JVal.jstr _ => Except.error PyExc.typeError
  | JVal.jnull => Except.error PyExc.typeError

/-- Python subscript `v[0]`. -/
def pySubscriptZero (v : JVal) : Except PyExc JVal :=
  match v with
  | JVal.jarr [] => Except.error PyExc.indexError
  | JVal.jarr (x :: _) => Except.ok x
  | JVal.jstr s =>
      if s.isEmpty then Except.error PyExc.indexError
      else Except.ok (JVal.jstr (s.take 1))
  | JVal.jobj _ => Except.error PyExc.keyError
  | JVal.jnull => Except.error PyExc.typeError

/-- The body of the parser's for-loop for one raw `order_dict`
(collector_curl_cffi.py lines 147-163).  The price expression and the
`sub_orders` indexing are evaluated first; then the keyword arguments of
the `OrderData(...)` call are evaluated left to right — `item_title =
sub_order.get("item_title")` raises AttributeError when `sub_order` is not
a dict — and finally the constructor call itself raises TypeError, because
common.py's OrderData dataclass has no `item_sku_title` or
`sub_order_desc` field (nor a `to_dict` method), so no record value is
ever produced. -/
def parseOneOrder (order_dict : JVal) : Except PyExc OrderDict :=
  match order_dict with
  | JVal.jobj fields =>
      let a := (jlookup fields "modified_total_price").getD JVal.jnull
      let _final_price_str :=
        if truthy a then a
        else (jlookup fields "total_price").getD (JVal.jstr "0.0")
      let sub_orders :=
        (jlookup fields "sub_orders").getD (JVal.jarr [JVal.jobj []])
      match pySubscriptZero sub_orders with
      | Except.error e => Except.error e
      | Except.ok sub_order =>
          match sub_order with
          | JVal.jobj _ => Except.error PyExc.typeError
          | _ => Except.error PyExc.attributeError
  | _ => Except.error PyExc.attributeError

/-- The parser's for-loop over the raw order list: records accumulate until
the first exception aborts the whole call. -/
def parseOrderList : List JVal → Except PyExc (List OrderDict)
  | [] => Except.ok []
  | od :: rest =>
      match parseOneOrder od with
      | Except.error e => Except.error e
      | Except.ok o =>
          match parseOrderList rest with
          | Except.error e => Except.error e
          | Except.ok os => Except.ok (o :: os)

/-- collector_curl_cffi.py `parse_and_prepare_orders` (lines 129-164):
`result_data = response_json.get("result")`; when `result_data` is falsy or
lacks the key "listRespDTOList" the accumulated (empty) list is returned;
a present-but-null inner list returns [] explicitly; otherwise the inner
list is iterated.  Iterating a non-list iterable (string: its characters;
dict: its keys) reaches `order_dict.get` on a non-dict and raises
AttributeError on the first element. -/
def parse_and_prepare_orders (response_json : JObj) :
    Except PyExc (List OrderDict) :=
  match jlookup response_json "result" with
  | none => Except.ok []
  | some result_data =>
      if truthy result_data && containsKey result_data "listRespDTOList" then
        match pySubscriptKey result_data "listRespDTOList" with
        | Except.error e => Except.error e
        | Except.ok order_dict_list =>
            match order_dict_list with
            | JVal.jnull => Except.ok []
            | JVal.jarr xs => parseOrderList xs
            | JVal.jstr s =>
                if s.isEmpty then Except.ok []
                else Except.error PyExc.attributeError
            | JVal.jobj fs =>
                if fs.isEmpty then Except.ok []
                else Except.error PyExc.attributeError
      else Except.ok []

/-! ## The fetch_page retry loop (collector_curl_cffi.py 167-252) -/

/-- Maximum attempts per page (collector_curl_cffi.py line 83). -/
def RETRY_COUNT : Nat := 3

/-- Fixed delay in seconds before a retry (line 85). -/
def RETRY_DELAY_SECONDS : Nat := 3

/-- Outcome of one network attempt of the loop body, up to the point where
`response.json()` has run: `curlError` is any CurlError from
`session.post` or `response.raise_for_status` (timeout, connection reset,
protocol error, HTTP error status — curl_cffi's RequestsError subclasses
CurlError); `jsonDecodeError` is a non-Curl exception from
`response.json()`; `httpOk` carries the decoded JSON object. -/
inductive AttemptOutcome where
  | curlError
  | jsonDecodeError
  | httpOk (response_json : JObj)

/-- Observable result of one `fetch_page` call: the returned value (None on
definitive failure, the raw inner list — possibly the literal empty list —
on success), the store after any insert, the number of attempts executed,
and the sleeps inserted between attempts. -/
structure FetchOut where
  result : Option JVal
  store : Store
  attempts : Nat
  delays : List Nat

/-- Python `v.get(k, default)`: AttributeError when `v` is not a dict. -/
def pyGetD (v : JVal) (k : String) (default : JVal) : Except PyExc JVal :=
  match v with
  | JVal.jobj fs => Except.ok ((jlookup fs k).getD default)
  | _ => Except.error PyExc.attributeError

/-- The `for attempt in range(RETRY_COUNT)` loop of `fetch_page`
(lines 200-252), over the list of remaining attempt indices, with the
outcome of each network attempt supplied by `outcomes`.  A CurlError
sleeps RETRY_DELAY_SECONDS and retries unless this was the last attempt
(line 242-246); any other exception — including a JSON decode failure and
every exception out of `parse_and_prepare_orders` — returns None at once
(lines 247-251); an empty parsed list returns the empty list (line 222-224);
otherwise the orders are inserted through database_async.insert_orders and
the raw inner list (the chained .get of "result" with an empty-dict default
and of "listRespDTOList" with an empty-list default) is returned. -/
def fetch_page_loop (outcomes : Nat → AttemptOutcome) :
    Store → List Nat → FetchOut
  | s, [] => { result := none, store := s, attempts := 0, delays := [] }
  | s, attempt :: rest =>
      match outcomes attempt with
      | AttemptOutcome.curlError =>
          if attempt < RETRY_COUNT - 1 then
            let r := fetch_page_loop outcomes s rest
            { result := r.result, store := r.store, attempts := r.attempts + 1,
              delays := RETRY_DELAY_SECONDS :: r.delays }
          else { result := none, store := s, attempts := 1, delays := [] }
      | AttemptOutcome.jsonDecodeError =>
          { result := none, store := s, attempts := 1, delays := [] }
      | AttemptOutcome.httpOk response_json =>
          match parse_and_prepare_orders response_json with
          | Except.error _ =>
              { result := none, store := s, attempts := 1, delays := [] }
          | Except.ok orders_to_insert =>
              if orders_to_insert.isEmpty then
                { result := some (JVal.jarr []), store := s, attempts := 1,
                  delays := [] }
              else
                let ins := database_async.insert_orders s orders_to_insert
                match pyGetD ((jlookup response_json "result").getD
                    (JVal.jobj [])) "listRespDTOList" (JVal.jarr []) with
                | Except.ok v =>
                    { result := some v, store := ins.2, attempts := 1,
                      delays := [] }
                | Except.error _ =>
                    { result := none, store := ins.2, attempts := 1,
                      delays := [] }

/-- collector_curl_cffi.py `fetch_page` for one page: the retry loop run
with attempt indices 0, 1, 2. -/
def fetch_page (s : Store) (outcomes : Nat → AttemptOutcome) : FetchOut :=
  fetch_page_loop outcomes s (List.range RETRY_COUNT)

/-! ## Lemmas about the insert path -/

theorem insertOne_spec (hit : Row → OrderDict → Bool) (s : Store)
    (o : OrderDict) :
    insertOne hit s o = (s, 0) ∨
    insertOne hit s o =
      ({ rows := s.rows ++ [mkRow s.nextId o], nextId := s.nextId + 1 }, 1) := by
  unfold insertOne
  split
  · exact Or.inl rfl
  · split
    · exact Or.inl rfl
    · exact Or.inr rfl

theorem execMany_spec (hit : Row → OrderDict → Bool) (batch : List OrderDict) :
    ∀ s : Store, ∃ new : List Row,
      (execMany hit s batch).1.rows = s.rows ++ new ∧
      (execMany hit s batch).2 = new.length ∧
      s.nextId ≤ (execMany hit s batch).1.nextId ∧
      (∀ x ∈ new, x.status = "pending" ∧ x.screenshot_path = none ∧
        s.nextId ≤ x.id ∧ x.id < (execMany hit s batch).1.nextId) ∧
      new.Pairwise (fun a b => a.id < b.id) := by
  induction batch with
  | nil =>
      intro s
      exact ⟨[], by simp [execMany], by simp [execMany], le_refl _,
        by simp, List.Pairwise.nil⟩
  | cons o rest ih =>
      intro s
      rcases insertOne_spec hit s o with h | h
      · obtain ⟨new, h1, h2, h3, h4, h5⟩ := ih s
        refine ⟨new, ?_, ?_, ?_, ?_, h5⟩
        · simpa [execMany, h] using h1
        · simpa [execMany, h] using h2
        · simpa [execMany, h] using h3
        · simpa [execMany, h] using h4
      · obtain ⟨new, h1, h2, h3, h4, h5⟩ :=
          ih { rows := s.rows ++ [mkRow s.nextId o], nextId := s.nextId + 1 }
        refine ⟨mkRow s.nextId o :: new, ?_, ?_, ?_, ?_, ?_⟩
        · simp only [execMany, h]
          simpa using h1
        · simp only [execMany, h]
          simp [h2, Nat.add_comm]
        · simp only [execMany, h]
          exact le_trans (Nat.le_succ _) h3
        · simp only [execMany, h]
          intro x hx
          rcases List.mem_cons.mp hx with hx | hx

          · subst hx
            refine ⟨rfl, rfl, le_refl _, ?_⟩
            simpa [mkRow] using lt_of_lt_of_le (Nat.lt_succ_self _) h3
          · obtain ⟨ha, hb, hc, hd⟩ := h4 x hx
            exact ⟨ha, hb, le_trans (Nat.le_succ _) hc, hd⟩
        · refine List.pairwise_cons.mpr ⟨?_, h5⟩
          intro x hx
          have := (h4 x hx).2.2.1
          simpa [mkRow] using lt_of_lt_of_le (Nat.lt_succ_self _) this

/-- C10: every row created by either bulk-insert variant enters the store
with status 'pending' and with no screenshot_path, whatever the input
dictionaries contain: the INSERT supplies the literal 'pending' and omits
the screenshot_path column, and no other lifecycle state is reachable
through the bulk insert. -/
theorem insert_rows_enter_pending (s : Store) (batch : List OrderDict) :
    (∃ new : List Row,
      (database.insert_orders s batch).2.rows = s.rows ++ new ∧
      ∀ r ∈ new, r.status = "pending" ∧ r.screenshot_path = none) ∧
    (∃ new : List Row,
      (database_async.insert_orders s batch).2.rows = s.rows ++ new ∧
      ∀ r ∈ new, r.status = "pending" ∧ r.screenshot_path = none) := by
  constructor
  · obtain ⟨new, h1, _, _, h4, _⟩ := execMany_spec hitOrderId batch s
    exact ⟨new, h1, fun r hr => ⟨(h4 r hr).1, (h4 r hr).2.1⟩⟩
  · obtain ⟨new, h1, _, _, h4, _⟩ := execMany_spec hitComposite batch s
    exact ⟨new, h1, fun r hr => ⟨(h4 r hr).1, (h4 r hr).2.1⟩⟩

/-- A batch element with the given dedup key, the empty-string
sub_order_desc the collectors emit for a normal order, and all other
attributes absent. -/
def demoOrder (key : String) : OrderDict :=
  { order_id := some key
    item_title := none
    item_sku_title := none
    order_status := none
    sub_order_desc := some ""
    total_price := none
    creation_time := none
    payment_time := none
    shipping_time := none
    order_detail_url := none }

/-- The empty store of a fresh database file. -/
def emptyStore : Store := { rows := [], nextId := 1 }

/-- Page-1 batch of the scenario: keys A1..A10. -/
def pageOneBatch : List OrderDict :=
  [demoOrder "A1", demoOrder "A2", demoOrder "A3", demoOrder "A4",
   demoOrder "A5", demoOrder "A6", demoOrder "A7", demoOrder "A8",
   demoOrder "A9", demoOrder "A10"]

/-- Page-2 batch of the scenario: keys A8..A13, overlapping page 1 in
A8..A10. -/
def pageTwoBatch : List OrderDict :=
  [demoOrder "A8", demoOrder "A9", demoOrder "A10", demoOrder "A11",
   demoOrder "A12", demoOrder "A13"]

/-- C3: either insert_orders variant returns exactly the number of rows the
batch newly created (the growth of the stored row count), and on the
concrete scenario — empty store, keys A1..A10, then A8..A13 — the calls
return 10 and then 3 with 13 rows stored, in both variants. -/
theorem insert_count_is_new_rows (s : Store) (batch : List OrderDict) :
    (s.rows.length + (database.insert_orders s batch).1 =
      (database.insert_orders s batch).2.rows.length) ∧
    (s.rows.length + (database_async.insert_orders s batch).1 =
      (database_async.insert_orders s batch).2.rows.length) ∧
    (database.insert_orders emptyStore pageOneBatch).1 = 10 ∧
    (database.insert_orders
      (database.insert_orders emptyStore pageOneBatch).2 pageTwoBatch).1 = 3 ∧
    ((database.insert_orders
      (database.insert_orders emptyStore pageOneBatch).2 pageTwoBatch).2.rows.length)
      = 13 ∧
    (database_async.insert_orders emptyStore pageOneBatch).1 = 10 ∧
    (database_async.insert_orders
      (database_async.insert_orders emptyStore pageOneBatch).2 pageTwoBatch).1
      = 3 ∧
    ((database_async.insert_orders
      (database_async.insert_orders emptyStore pageOneBatch).2
        pageTwoBatch).2.rows.length) = 13 := by
  refine ⟨?_, ?_, by decide, by decide, by decide, by decide, by decide,
    by decide⟩
  · obtain ⟨new, h1, h2, _, _, _⟩ := execMany_spec hitOrderId batch s
    simp [database.insert_orders, h1, h2]
  · obtain ⟨new, h1, h2, _, _, _⟩ := execMany_spec hitComposite batch s
    simp [database_async.insert_orders, h1, h2]

theorem insertOne_cases (hit : Row → OrderDict → Bool) (s : Store)
    (o : OrderDict) :
    o.order_id = none ∨
    ((∃ r ∈ s.rows, hit r o = true) ∧ insertOne hit s o = (s, 0)) ∨
    insertOne hit s o =
      ({ rows := s.rows ++ [mkRow s.nextId o], nextId := s.nextId + 1 }, 1) := by
  by_cases h1 : o.order_id = none
  · exact Or.inl h1
  · by_cases h2 : s.rows.any (fun r => hit r o) = true
    · refine Or.inr (Or.inl ⟨?_, ?_⟩)
      · obtain ⟨r, hr, hh⟩ := List.any_eq_true.mp h2
        exact ⟨r, hr, hh⟩
      · simp [insertOne, h1, h2]
    · refine Or.inr (Or.inr ?_)
      simp [insertOne, h1, h2]

theorem insertOne_noop (hit : Row → OrderDict → Bool) (s : Store)
    (o : OrderDict)
    (h : o.order_id = none ∨ ∃ r ∈ s.rows, hit r o = true) :
    insertOne hit s o = (s, 0) := by
  rcases h with h | ⟨r, hr, hh⟩
  · simp [insertOne, h]
  · have ha : s.rows.any (fun r => hit r o) = true :=
      List.any_eq_true.mpr ⟨r, hr, hh⟩
    by_cases hn : o.order_id = none
    · simp [insertOne, hn]
    · simp [insertOne, hn, ha]

theorem execMany_noop (hit : Row → OrderDict → Bool)
    (batch : List OrderDict) : ∀ s : Store,
    (∀ o ∈ batch, o.order_id = none ∨ ∃ r ∈ s.rows, hit r o = true) →
    execMany hit s batch = (s, 0) := by
  induction batch with
  | nil => intro s _; rfl
  | cons o rest ih =>
      intro s h
      have h0 := insertOne_noop hit s o (h o (by simp))
      have h1 := ih s (fun o' ho' => h o' (by simp [ho']))
      simp [execMany, h0, h1]

theorem execMany_keys_present (hit : Row → OrderDict → Bool)
    (batch : List OrderDict)
    (hself : ∀ o ∈ batch, o.order_id ≠ none →
      ∀ n, hit (mkRow n o) o = true) :
    ∀ s : Store, ∀ o ∈ batch,
      o.order_id = none ∨
      ∃ r ∈ (execMany hit s batch).1.rows, hit r o = true := by
  induction batch with
  | nil => intro s o ho; cases ho
  | cons b rest ih =>
      intro s o ho
      by_cases hn : o.order_id = none
      · exact Or.inl hn
      · right
        have hmono : ∀ (t : Store) (r : Row), r ∈ t.rows →
            r ∈ (execMany hit t rest).1.rows := by
          intro t r hr
          obtain ⟨new, h1, _, _, _, _⟩ := execMany_spec hit rest t
          rw [h1]
          exact List.mem_append_left _ hr
        have hgoal : (execMany hit s (b :: rest)).1.rows =
            (execMany hit (insertOne hit s b).1 rest).1.rows := by
          simp [execMany]
        rcases List.mem_cons.mp ho with rfl | hor
        · rcases insertOne_cases hit s o with h | ⟨⟨r, hr, hh⟩, heq⟩ | heq
          · exact absurd h hn
          · refine ⟨r, ?_, hh⟩
            rw [hgoal, heq]
            exact hmono s r hr
          · refine ⟨mkRow s.nextId o, ?_, hself o (by simp) hn s.nextId⟩
            rw [hgoal, heq]
            exact hmono _ _ (by simp)
        · have := ih (fun o' ho' hn' => hself o' (by simp [ho']) hn')
            (insertOne hit s b).1 o hor
          rcases this with h | ⟨r, hr, hh⟩
          · exact absurd h hn
          · exact ⟨r, by rw [hgoal]; exact hr, hh⟩

theorem execMany_idempotent (hit : Row → OrderDict → Bool)
    (batch : List OrderDict) (s : Store)
    (hself : ∀ o ∈ batch, o.order_id ≠ none →
      ∀ n, hit (mkRow n o) o = true) :
    execMany hit (execMany hit s batch).1 batch =
      ((execMany hit s batch).1, 0) :=
  execMany_noop hit batch _ (execMany_keys_present hit batch hself s)

/-- A batch element whose sub_order_desc is NULL (the raw record carried no
sub_order_desc and no default was applied). -/
def nullDescOrder : OrderDict :=
  { order_id := some "A"
    item_title := none
    item_sku_title := none
    order_status := none
    sub_order_desc := none
    total_price := none
    creation_time := none
    payment_time := none
    shipping_time := none
    order_detail_url := none }

/-- C2 counterexample: in the composite-key variant, re-inserting a batch
whose record has a NULL sub_order_desc is not a no-op — the second call
returns inserted_count = 1 and the stored row count grows from 1 to 2,
because SQLite's UNIQUE(order_id, sub_order_desc) treats each NULL as
distinct and so never fires for these rows. -/
theorem insert_idempotent_counterexample :
    (database_async.insert_orders
      (database_async.insert_orders emptyStore [nullDescOrder]).2
      [nullDescOrder]).1 = 1 ∧
    (database_async.insert_orders emptyStore [nullDescOrder]).2.rows.length
      = 1 ∧
    ((database_async.insert_orders
      (database_async.insert_orders emptyStore [nullDescOrder]).2
      [nullDescOrder]).2).rows.length = 2 := by
  decide

/-- C2 amended: inserting the same batch a second time returns
inserted_count = 0 and leaves the stored rows unchanged — unconditionally
for the order_id-keyed variant (database.py), and for the composite-key
variant (database_async.py) provided every record of the batch has a
non-NULL sub_order_desc; a record whose sub_order_desc is NULL is
re-inserted rather than ignored, since the UNIQUE constraint treats NULLs
as pairwise distinct. -/
theorem insert_idempotent (s : Store) (batch : List OrderDict) :
    database.insert_orders (database.insert_orders s batch).2 batch =
      (0, (database.insert_orders s batch).2) ∧
    ((∀ o ∈ batch, o.sub_order_desc ≠ none) →
      database_async.insert_orders
        (database_async.insert_orders s batch).2 batch =
        (0, (database_async.insert_orders s batch).2)) := by
  constructor
  · have hself : ∀ o ∈ batch, o.order_id ≠ none →
        ∀ n, hitOrderId (mkRow n o) o = true := by
      intro o _ hn n
      match h : o.order_id with
      | none => exact absurd h hn
      | some k => simp [hitOrderId, mkRow, sqlEq, h]
    have := execMany_idempotent hitOrderId batch s hself
    simp [database.insert_orders, this]
  · intro hdesc
    have hself : ∀ o ∈ batch, o.order_id ≠ none →
        ∀ n, hitComposite (mkRow n o) o = true := by
      intro o ho hn n
      have hd := hdesc o ho
      match h : o.order_id, h2 : o.sub_order_desc with
      | none, _ => exact absurd h hn
      | some k, none => exact absurd h2 hd
      | some k, some d => simp [hitComposite, mkRow, sqlEq, h, h2]
    have := execMany_idempotent hitComposite batch s hself
    simp [database_async.insert_orders, this]

/-- C2 witness: the amended idempotence at a concrete input — re-inserting
the ten-record page-1 batch into the composite-key store is a no-op. -/
theorem insert_idempotent_witness :
    database_async.insert_orders
      (database_async.insert_orders emptyStore pageOneBatch).2 pageOneBatch =
      (0, (database_async.insert_orders emptyStore pageOneBatch).2) :=
  (insert_idempotent emptyStore pageOneBatch).2 (by decide)

/-! ## C8: response decoding -/

/-- C8 counterexample: a body that starts with the gzip magic bytes but is
truncated makes gzip.decompress raise EOFError, which the decoder's
`except gzip.BadGzipFile` clause does not catch — the decompression step
raises to its caller instead of falling back to the raw text. -/
theorem decode_fallback_counterexample :
    decode_response_body RawBody.corruptGzip = Except.error DecErr.eofError := by
  rfl

/-- C8 amended: the decoder attempts decompression and falls back to the
raw body as text exactly when decompression fails with BadGzipFile (a body
not starting with the gzip magic); a well-formed gzip body yields its
payload; but a decompression failure of any other kind (truncated or
corrupt gzip stream) is not caught by the fallback and propagates out of
the decompression step to the handler's outer catch-all. -/
theorem decode_fallback (p t : String) :
    decode_response_body (RawBody.gzipOf p) = Except.ok p ∧
    decode_response_body (RawBody.plain t) = Except.ok t ∧
    decode_response_body RawBody.corruptGzip = Except.error DecErr.eofError :=
  ⟨rfl, rfl, rfl⟩

/-! ## C9: driver-pool regeneration -/

/-- C9 counterexample: a worker holds the pool's only driver instance (the
pool is momentarily empty) at its destruction threshold; destruction is
followed by a failed create_new_driver_instance, so nothing is put back and
the pool's size has permanently shrunk from 1 to 0 — refuting that the
pool's size never permanently shrinks due to regeneration. -/
theorem pool_regen_counterexample :
    returnOrRegen [] ⟨0⟩ DRIVER_MAX_USE_COUNT 7 false = [] ∧
    (returnOrRegen [] ⟨0⟩ DRIVER_MAX_USE_COUNT 7 false).length ≠ 1 := by
  decide

/-- C9 amended: an instance below the use-count threshold is returned to
the pool with its count; an instance at or beyond the threshold (which a
fatal-looking error forces via fatalAdjust) is destroyed and never returned
(its uid is gone from the pool), and when creating the replacement succeeds
a fresh zero-count instance is added so the pool's size is preserved — but
when creation fails nothing is added and the pool shrinks by one. -/
theorem pool_regen (pool : DriverPool) (d : Driver) (c uid : Nat)
    (hfresh : ∀ c', (d, c') ∉ pool) (huid : d.uid ≠ uid) :
    (c < DRIVER_MAX_USE_COUNT → returnOrRegen pool d c uid true = pool ++ [(d, c)]) ∧
    (DRIVER_MAX_USE_COUNT ≤ c →
      returnOrRegen pool d c uid true = pool ++ [(⟨uid⟩, 0)] ∧
      (returnOrRegen pool d c uid true).length = pool.length + 1 ∧
      (∀ c', (d, c') ∉ returnOrRegen pool d c uid true)) ∧
    (DRIVER_MAX_USE_COUNT ≤ c →
      returnOrRegen pool d c uid false = pool ∧
      (returnOrRegen pool d c uid false).length = pool.length) ∧
    fatalAdjust c true = DRIVER_MAX_USE_COUNT := by
  refine ⟨?_, ?_, ?_, rfl⟩
  · intro hlt
    simp [returnOrRegen, Nat.not_le.mpr hlt]
  · intro hle
    refine ⟨by simp [returnOrRegen, hle], by simp [returnOrRegen, hle], ?_⟩
    intro c' hmem
    simp only [returnOrRegen, hle, if_true, if_pos] at hmem
    rcases List.mem_append.mp hmem with h | h
    · exact hfresh c' h
    · have hd : d = ⟨uid⟩ := congrArg Prod.fst (List.mem_singleton.mp h)
      exact huid (by rw [hd])
  · intro hle
    exact ⟨by simp [returnOrRegen, hle], by simp [returnOrRegen, hle]⟩

/-- C9 witness: the amended behavior at concrete inputs — a driver at use
count 50 held out of a one-element pool is replaced by a fresh zero-count
instance when creation succeeds, preserving the pool size. -/
theorem pool_regen_witness :
    returnOrRegen [(⟨1⟩, 3)] ⟨0⟩ 50 7 true = [(⟨1⟩, 3), (⟨7⟩, 0)] ∧
    (returnOrRegen [(⟨1⟩, 3)] ⟨0⟩ 50 7 true).length = 2 := by
  have h := pool_regen [(⟨1⟩, 3)] ⟨0⟩ 50 7
    (by intro c' hc'; simp at hc') (by decide)
  exact ⟨(h.2.1 (by decide)).1, (h.2.1 (by decide)).2.1⟩

/-! ## C7: parsing and end-of-pagination -/

/-- C7 evaluation: an absent `result`, a null `result` and a
present-but-null `result.listRespDTOList` all parse to the empty record
list (no error), and a fetch whose parsed list is empty returns the empty
list (end of pagination), not the failure marker.  However, a response
carrying even one raw record makes the parser raise TypeError — common.py's
OrderData dataclass has no `item_sku_title` or `sub_order_desc` field (nor
a `to_dict` method), so the `OrderData(...)` constructor call fails for
every record and the enclosing fetch abandons the page with None — against
both the parser's own robustness docstring and the spec. -/
theorem parse_missing_list_normalization :
    parse_and_prepare_orders [("result", JVal.jnull)] = Except.ok [] ∧
    parse_and_prepare_orders [("status", JVal.jstr "0")] = Except.ok [] ∧
    parse_and_prepare_orders
      [("result", JVal.jobj [("listRespDTOList", JVal.jnull)])] =
      Except.ok [] ∧
    (fetch_page emptyStore (fun _ => AttemptOutcome.httpOk
      [("result", JVal.jobj [("listRespDTOList", JVal.jnull)])])).result =
      some (JVal.jarr []) ∧
    parse_and_prepare_orders
      [("result", JVal.jobj [("listRespDTOList", JVal.jarr
        [JVal.jobj [("order_id", JVal.jstr "834671103115497")]])])] =
      Except.error PyExc.typeError ∧
    (fetch_page emptyStore (fun _ => AttemptOutcome.httpOk
      [("result", JVal.jobj [("listRespDTOList", JVal.jarr
        [JVal.jobj [("order_id", JVal.jstr "834671103115497")]])])])).result
      = none :=
  ⟨rfl, rfl, rfl, rfl, rfl, rfl⟩

/-! ## Lemmas about status lookup and the claim operation -/

theorem find?_map_pres (f : Row → Row) (hid : ∀ r, (f r).id = r.id)
    (rows : List Row) (id : Nat) :
    (rows.map f).find? (fun r => r.id == id) =
      (rows.find? (fun r => r.id == id)).map f := by
  induction rows with
  | nil => rfl
  | cons r rest ih =>
      by_cases h : (r.id == id) = true
      · have h' : ((f r).id == id) = true := by rw [hid r]; exact h
        simp [List.find?_cons, h, h']
      · have h' : ((f r).id == id) = false := by
          rw [hid r]; exact Bool.not_eq_true _ ▸ eq_false_of_ne_true h
        simp [List.find?_cons, h, h', ih]

theorem statusOf_setStatus (rows : List Row) (nid tid id : Nat)
    (st : String) :
    statusOf ⟨setStatus rows tid st, nid⟩ id =
      if id = tid then (statusOf ⟨rows, nid⟩ id).map (fun _ => st)
      else statusOf ⟨rows, nid⟩ id := by
  have hid : ∀ r : Row,
      ((if r.id == tid then { r with status := st } else r) : Row).id = r.id := by
    intro r
    by_cases h : (r.id == tid) = true <;> simp [h]
  show ((setStatus rows tid st).find? (fun r => r.id == id)).map
      (fun r => r.status) = _
  unfold setStatus
  rw [find?_map_pres _ hid]
  rcases hfind : rows.find? (fun r => r.id == id) with _ | r
  · simp [statusOf, hfind]
  · have hr := List.find?_some hfind
    have hr' : r.id = id := by simpa using hr
    by_cases h : id = tid
    · subst h
      simp [statusOf, hfind, hr']
    · have hne : (r.id == tid) = false := by simp [hr', h]
      simp [statusOf, hfind, hne, hr', h]

/-- C5: a storage-layer exception at any point of the claim — during the
SELECT, the UPDATE or the commit — rolls the transaction back and the
operation returns None with the store unchanged; the fault-free run is
exactly `fetch_pending_task`; with no pending record the operation returns
None without modifying the store; and no row ends up 'running' without
either having been 'running' already or being the row returned to the
caller (no half-claimed row). -/
theorem claim_fault_semantics (s : Store) (fault : Option database.DbFault) :
    database.fetch_pending_task_faulty s none = database.fetch_pending_task s ∧
    (∀ f, fault = some f →
      database.fetch_pending_task_faulty s fault = (none, s)) ∧
    ((∀ r ∈ s.rows, r.status ≠ "pending") →
      database.fetch_pending_task_faulty s fault = (none, s)) ∧
    (∀ id,
      statusOf (database.fetch_pending_task_faulty s fault).2 id =
        some "running" →
      statusOf s id = some "running" ∨
      ∃ t, (database.fetch_pending_task_faulty s fault).1 = some t ∧
        t.id = id) := by
  have hfaulted : ∀ f, database.fetch_pending_task_faulty s (some f) =
      (none, s) := by
    intro f
    cases f <;>
      · unfold database.fetch_pending_task_faulty
        rcases hf : s.rows.find? (fun r => r.status == "pending") with _ | t <;>
          simp [hf]
  refine ⟨?_, ?_, ?_, ?_⟩
  · unfold database.fetch_pending_task_faulty database.fetch_pending_task
    rcases hf : s.rows.find? (fun r => r.status == "pending") with _ | t <;>
      simp [hf]
  · intro f hf
    rw [hf]
    exact hfaulted f
  · intro hnone
    have hfind : s.rows.find? (fun r => r.status == "pending") = none := by
      apply List.find?_eq_none.mpr
      intro r hr
      simpa using hnone r hr
    cases fault with
    | none => unfold database.fetch_pending_task_faulty; simp [hfind]
    | some f => exact hfaulted f
  · intro id hrun
    cases fault with
    | some f =>
        rw [hfaulted f] at hrun
        exact Or.inl hrun
    | none =>
        rcases hfind : s.rows.find? (fun r => r.status == "pending")
          with _ | t
        · unfold database.fetch_pending_task_faulty at hrun
          rw [hfind] at hrun
          exact Or.inl hrun
        · unfold database.fetch_pending_task_faulty at hrun ⊢
          rw [hfind] at hrun ⊢
          simp only at hrun
          by_cases hid : id = t.id
          · exact Or.inr ⟨t, by simp, hid.symm⟩
          · left
            have := statusOf_setStatus s.rows s.nextId t.id id "running"
            rw [if_neg hid] at this
            rw [← this]
            exact hrun

/-- A minimal pending row with the given primary-key id. -/
def mkPendingRow (i : Nat) : Row :=
  { id := i
    order_id := some (toString i)
    item_title := none
    item_sku_title := none
    order_status := none
    sub_order_desc := some ""
    total_price := none
    creation_time := none
    payment_time := none
    shipping_time := none
    order_detail_url := some "https://weidian.com/order/detail.php"
    screenshot_path := none
    status := "pending" }

/-- A store holding two pending rows. -/
def twoPendingStore : Store :=
  { rows := [mkPendingRow 1, mkPendingRow 2], nextId := 3 }

/-- C5 witness: a fault during the UPDATE of a claim against the
two-pending-row store returns None and leaves the store untouched. -/
theorem claim_fault_semantics_witness :
    database.fetch_pending_task_faulty twoPendingStore
      (some database.DbFault.atUpdate) = (none, twoPendingStore) :=
  (claim_fault_semantics twoPendingStore
    (some database.DbFault.atUpdate)).2.1 database.DbFault.atUpdate rfl

/-! ## C6: the retry policy of fetch_page -/

theorem loop_attempt_one (outcomes : Nat → AttemptOutcome) (s : Store)
    (attempt : Nat) (rest : List Nat)
    (h : outcomes attempt ≠ AttemptOutcome.curlError) :
    (fetch_page_loop outcomes s (attempt :: rest)).attempts = 1 ∧
    (fetch_page_loop outcomes s (attempt :: rest)).delays = [] := by
  rcases ho : outcomes attempt with _ | _ | j
  · exact absurd ho h
  · simp [fetch_page_loop, ho]
  · simp only [fetch_page_loop, ho]
    rcases hp : parse_and_prepare_orders j with e | orders
    · simp
    · by_cases he : orders.isEmpty
      · simp [he]
      · simp only [he, if_false, Bool.false_eq_true]
        rcases hg : pyGetD ((jlookup j "result").getD (JVal.jobj []))
            "listRespDTOList" (JVal.jarr []) with e | v
        · simp
        · simp

theorem loop_singleton (outcomes : Nat → AttemptOutcome) (s : Store) :
    ((fetch_page_loop outcomes s [2]).attempts = 1 ∧
      (fetch_page_loop outcomes s [2]).delays = []) ∧
    (outcomes 2 = AttemptOutcome.curlError →
      fetch_page_loop outcomes s [2] =
        { result := none, store := s, attempts := 1, delays := [] }) := by
  constructor
  · rcases ho : outcomes 2 with _ | _ | j
    · simp [fetch_page_loop, ho, RETRY_COUNT]
    · simp [fetch_page_loop, ho]
    · exact loop_attempt_one outcomes s 2 [] (by simp [ho])
  · intro ho
    simp [fetch_page_loop, ho, RETRY_COUNT]

theorem loop_pair (outcomes : Nat → AttemptOutcome) (s : Store) :
    ((fetch_page_loop outcomes s [1, 2]).attempts ≤ 2 ∧
      (∀ d ∈ (fetch_page_loop outcomes s [1, 2]).delays,
        d = RETRY_DELAY_SECONDS)) ∧
    (1 < (fetch_page_loop outcomes s [1, 2]).attempts →
      outcomes 1 = AttemptOutcome.curlError) ∧
    (outcomes 1 = AttemptOutcome.curlError →
      outcomes 2 = AttemptOutcome.curlError →
      fetch_page_loop outcomes s [1, 2] =
        { result := none, store := s, attempts := 2,
          delays := [RETRY_DELAY_SECONDS] }) := by
  rcases ho : outcomes 1 with _ | _ | j
  · have hstep : fetch_page_loop outcomes s [1, 2] =
        { result := (fetch_page_loop outcomes s [2]).result,
          store := (fetch_page_loop outcomes s [2]).store,
          attempts := (fetch_page_loop outcomes s [2]).attempts + 1,
          delays :=
            RETRY_DELAY_SECONDS :: (fetch_page_loop outcomes s [2]).delays }
        := by
      simp [fetch_page_loop, ho, RETRY_COUNT]
    obtain ⟨⟨ha, hd⟩, hcurl⟩ := loop_singleton outcomes s
    refine ⟨⟨?_, ?_⟩, fun _ => rfl, ?_⟩
    · simp only [hstep]; omega
    · simp only [hstep]
      intro d hdm
      rcases List.mem_cons.mp hdm with rfl | hdm
      · rfl
      · rw [hd] at hdm; cases hdm
    · intro _ h2
      rw [hstep, hcurl h2]
  · obtain ⟨ha, hd⟩ := loop_attempt_one outcomes s 1 [2] (by simp [ho])
    refine ⟨⟨by omega, ?_⟩, ?_, ?_⟩
    · intro d hdm
      rw [hd] at hdm; cases hdm
    · intro hlt
      exact absurd hlt (by omega)
    · intro h1; cases h1
  · obtain ⟨ha, hd⟩ := loop_attempt_one outcomes s 1 [2] (by simp [ho])
    refine ⟨⟨by omega, ?_⟩, ?_, ?_⟩
    · intro d hdm
      rw [hd] at hdm; cases hdm
    · intro hlt
      exact absurd hlt (by omega)
    · intro h1; cases h1

/-- C6: the fetch loop makes at most RETRY_COUNT = 3 attempts; every sleep
between attempts is the fixed RETRY_DELAY_SECONDS = 3; a second or third
attempt happens only after a CurlError (transient network-layer failure) on
the previous attempt; three CurlErrors exhaust the retries and return the
failure marker None with the store untouched after exactly 3 attempts and 2
fixed delays; and a JSON decode failure or any parser exception (decode
error, unexpected schema) abandons the page immediately — None after
exactly 1 attempt, no retry, no delay. -/
theorem fetch_retry_policy (s : Store) (outcomes : Nat → AttemptOutcome) :
    (fetch_page s outcomes).attempts ≤ RETRY_COUNT ∧
    (∀ d ∈ (fetch_page s outcomes).delays, d = RETRY_DELAY_SECONDS) ∧
    (1 < (fetch_page s outcomes).attempts →
      outcomes 0 = AttemptOutcome.curlError) ∧
    (2 < (fetch_page s outcomes).attempts →
      outcomes 1 = AttemptOutcome.curlError) ∧
    (outcomes 0 = AttemptOutcome.curlError →
      outcomes 1 = AttemptOutcome.curlError →
      outcomes 2 = AttemptOutcome.curlError →
      fetch_page s outcomes =
        { result := none, store := s, attempts := 3,
          delays := [RETRY_DELAY_SECONDS, RETRY_DELAY_SECONDS] }) ∧
    (outcomes 0 = AttemptOutcome.jsonDecodeError →
      (fetch_page s outcomes).result = none ∧
      (fetch_page s outcomes).attempts = 1 ∧
      (fetch_page s outcomes).delays = []) ∧
    (∀ j e, outcomes 0 = AttemptOutcome.httpOk j →
      parse_and_prepare_orders j = Except.error e →
      (fetch_page s outcomes).result = none ∧
      (fetch_page s outcomes).attempts = 1 ∧
      (fetch_page s outcomes).delays = []) := by
  have hfp : fetch_page s outcomes = fetch_page_loop outcomes s [0, 1, 2] :=
    rfl
  rcases ho : outcomes 0 with _ | _ | j
  · have hstep : fetch_page s outcomes =
        { result := (fetch_page_loop outcomes s [1, 2]).result,
          store := (fetch_page_loop outcomes s [1, 2]).store,
          attempts := (fetch_page_loop outcomes s [1, 2]).attempts + 1,
          delays := RETRY_DELAY_SECONDS ::
            (fetch_page_loop outcomes s [1, 2]).delays } := by
      rw [hfp]
      simp [fetch_page_loop, ho, RETRY_COUNT]
    obtain ⟨⟨ha, hd⟩, hone, hcc⟩ := loop_pair outcomes s
    refine ⟨?_, ?_, fun _ => rfl, ?_, ?_, ?_, ?_⟩
    · simp only [hstep, RETRY_COUNT]; omega
    · simp only [hstep]
      intro d hdm
      rcases List.mem_cons.mp hdm with rfl | hdm
      · rfl
      · exact hd d hdm
    · simp only [hstep]
      intro hlt
      exact hone (by omega)
    · intro _ h1 h2
      rw [hstep, hcc h1 h2]
    · intro hjson
      cases hjson
    · intro j e hjson _
      cases hjson
  · obtain ⟨ha, hd⟩ := loop_attempt_one outcomes s 0 [1, 2] (by simp [ho])
    rw [← hfp] at ha hd
    refine ⟨by rw [ha]; simp [RETRY_COUNT], ?_, ?_, ?_, ?_, ?_, ?_⟩
    · intro d hdm
      rw [hd] at hdm; cases hdm
    · intro hlt
      exact absurd hlt (by omega)
    · intro hlt
      exact absurd hlt (by omega)
    · intro h0
      cases h0
    · intro _
      refine ⟨?_, ha, hd⟩
      rw [hfp]
      simp [fetch_page_loop, ho]
    · intro j e hjson _
      cases hjson
  · obtain ⟨ha, hd⟩ := loop_attempt_one outcomes s 0 [1, 2] (by simp [ho])
    rw [← hfp] at ha hd
    refine ⟨by rw [ha]; simp [RETRY_COUNT], ?_, ?_, ?_, ?_, ?_, ?_⟩
    · intro d hdm
      rw [hd] at hdm; cases hdm
    · intro hlt
      exact absurd hlt (by omega)
    · intro hlt
      exact absurd hlt (by omega)
    · intro h0
      cases h0
    · intro h0
      cases h0
    · intro j' e hjson hperr
      have hj : j = j' := by
        cases hjson
        rfl
      subst hj
      refine ⟨?_, ha, hd⟩
      rw [hfp]
      simp [fetch_page_loop, ho, hperr]

/-- C6 witness: against the empty store, three consecutive network errors
yield the failure marker after exactly three attempts with the two fixed
3-second delays. -/
theorem fetch_retry_policy_witness :
    fetch_page emptyStore (fun _ => AttemptOutcome.curlError) =
      { result := none, store := emptyStore, attempts := 3,
        delays := [RETRY_DELAY_SECONDS, RETRY_DELAY_SECONDS] } :=
  (fetch_retry_policy emptyStore
    (fun _ => AttemptOutcome.curlError)).2.2.2.2.1 rfl rfl rfl

/-! ## Lemmas for the exactly-once claim -/

theorem find?_cons_pos' (p : Row → Bool) (a : Row) (l : List Row)
    (h : p a = true) : (a :: l).find? p = some a := by
  simp [List.find?_cons, h]

theorem find?_cons_neg' (p : Row → Bool) (a : Row) (l : List Row)
    (h : p a = false) : (a :: l).find? p = l.find? p := by
  simp [List.find?_cons, h]

theorem setStatus_map_id (rows : List Row) (tid : Nat) (st : String) :
    (setStatus rows tid st).map Row.id = rows.map Row.id := by
  unfold setStatus
  rw [List.map_map]
  apply List.map_congr_left
  intro r _
  by_cases h : r.id = tid
  · simp [h]
  · simp [h]

theorem find?_id_of_mem : ∀ rows : List Row, (rows.map Row.id).Nodup →
    ∀ r ∈ rows, rows.find? (fun x => x.id == r.id) = some r := by
  intro rows
  induction rows with
  | nil => intro _ r hr; cases hr
  | cons a rest ih =>
      intro hnd r hr
      rw [List.map_cons, List.nodup_cons] at hnd
      rcases List.mem_cons.mp hr with rfl | hr'
      · exact find?_cons_pos' (fun x => x.id == r.id) r rest (by simp)
      · have hne : (a.id == r.id) = false := by
          apply beq_eq_false_iff_ne.mpr
          intro he
          exact hnd.1 (he ▸ List.mem_map_of_mem Row.id hr')
        rw [find?_cons_neg' (fun x => x.id == r.id) a rest hne]
        exact ih hnd.2 r hr'

theorem setStatus_of_not_mem (rows : List Row) (tid : Nat) (st : String)
    (h : ∀ x ∈ rows, x.id ≠ tid) : setStatus rows tid st = rows := by
  have hmap : rows.map
      (fun r => if r.id == tid then { r with status := st } else r) =
      rows.map (fun r => r) := by
    apply List.map_congr_left
    intro r hr
    have hb : (r.id == tid) = false := beq_eq_false_iff_ne.mpr (h r hr)
    simp [hb]
  unfold setStatus
  simpa using hmap

theorem countP_pending_setStatus (t : Row) :
    ∀ rows : List Row, (rows.map Row.id).Nodup →
    rows.find? (fun r => r.status == "pending") = some t →
    (setStatus rows t.id "running").countP
        (fun r => r.status == "pending") + 1 =
      rows.countP (fun r => r.status == "pending") := by
  intro rows
  induction rows with
  | nil => intro _ hfind; cases hfind
  | cons a rest ih =>
      intro hnd hfind
      rw [List.map_cons, List.nodup_cons] at hnd
      by_cases hp : (a.status == "pending") = true
      · rw [find?_cons_pos' (fun r => r.status == "pending") a rest hp]
          at hfind
        have ht : a = t := by injection hfind
        subst ht
        have hrest : setStatus rest a.id "running" = rest := by
          apply setStatus_of_not_mem
          intro x hx he
          exact hnd.1 (he ▸ List.mem_map_of_mem Row.id hx)
        have hstep : setStatus (a :: rest) a.id "running" =
            { a with status := "running" } :: rest := by
          simp only [setStatus, List.map_cons, beq_self_eq_true, if_true,
            List.cons.injEq]
          refine ⟨by simp, ?_⟩
          simp only [setStatus] at hrest
          exact hrest
        rw [hstep, List.countP_cons, List.countP_cons]
        simp [hp]
      · have hp' : (a.status == "pending") = false := by
          simpa using hp
        rw [find?_cons_neg' (fun r => r.status == "pending") a rest hp']
          at hfind
        have htmem : t ∈ rest := List.mem_of_find?_eq_some hfind
        have hane : (a.id == t.id) = false := by
          apply beq_eq_false_iff_ne.mpr
          intro he
          exact hnd.1 (he ▸ List.mem_map_of_mem Row.id htmem)
        have hih := ih hnd.2 hfind
        have hstep : setStatus (a :: rest) t.id "running" =
            a :: setStatus rest t.id "running" := by
          simp only [setStatus, List.map_cons, hane]
          simp
        rw [hstep, List.countP_cons, List.countP_cons]
        simp only [hp']
        omega

theorem fetch_eq_of_find_some (s : Store) (t : Row)
    (hfind : s.rows.find? (fun r => r.status == "pending") = some t) :
    database.fetch_pending_task s =
      (some t, { s with rows := setStatus s.rows t.id "running" }) := by
  unfold database.fetch_pending_task
  rw [hfind]

theorem fetch_eq_of_find_none (s : Store)
    (hfind : s.rows.find? (fun r => r.status == "pending") = none) :
    database.fetch_pending_task s = (none, s) := by
  unfold database.fetch_pending_task
  rw [hfind]

theorem pendingCount_zero_of_find_none (s : Store)
    (hfind : s.rows.find? (fun r => r.status == "pending") = none) :
    pendingCount s = 0 := by
  unfold pendingCount
  apply List.countP_eq_zero.mpr
  exact List.find?_eq_none.mp hfind

theorem runClaimers_preserves_running (W : Nat) : ∀ (s : Store) (id : Nat),
    statusOf s id = some "running" →
    statusOf (database.runClaimers s W).2 id = some "running" := by
  induction W with
  | zero => intro s id h; exact h
  | succ n ih =>
      intro s id h
      rcases hfind : s.rows.find? (fun r => r.status == "pending") with _ | t
      · rw [show (database.runClaimers s (n + 1)).2 =
            (database.runClaimers s n).2 from by
          simp [database.runClaimers, fetch_eq_of_find_none s hfind]]
        exact ih s id h
      · rw [show (database.runClaimers s (n + 1)).2 =
            (database.runClaimers
              { s with rows := setStatus s.rows t.id "running" } n).2 from by
          simp [database.runClaimers, fetch_eq_of_find_some s t hfind]]
        apply ih
        rw [statusOf_setStatus]
        by_cases hid : id = t.id
        · rw [if_pos hid, h]
          rfl
        · rw [if_neg hid]
          exact h

/-- Two async claimers, both about to run their SELECT, over the
two-pending-row store. -/
def twoReadyClaimers : database_async.ClaimSystem :=
  { store := twoPendingStore,
    workers := [database_async.ClaimPhase.ready,
                database_async.ClaimPhase.ready] }

/-- C1 counterexample: in the async variant the SELECT runs outside the
implicit transaction (Python sqlite3 only opens it before data-modification
statements), so under the interleaving select-select-update-update both
concurrent claimers of a two-pending-record store return the same record
(id 1): a record is returned to two callers, and only one record — not
min(2,2) = 2 — flips to 'running'. -/
theorem claim_exactly_once_counterexample :
    (database_async.runSchedule twoReadyClaimers [0, 1, 0, 1]).workers =
      [database_async.ClaimPhase.finished (some (mkPendingRow 1)),
       database_async.ClaimPhase.finished (some (mkPendingRow 1))] ∧
    pendingCount
      (database_async.runSchedule twoReadyClaimers [0, 1, 0, 1]).store = 1 := by
  decide

/-- C1 amended: for the sync variant (database.py), whose SELECT and UPDATE
run inside one explicit BEGIN EXCLUSIVE transaction and which therefore
serializes — and for the async variant only when its calls happen to
serialize — W claimers against a store with P pending records claim exactly
min(W,P) records: that many Some-results, pairwise-distinct row ids, each
claimed row pending beforehand and 'running' afterwards, and the pending
count drops by exactly min(W,P).  The async variant's interleaved
executions violate this (see the counterexample). -/
theorem claim_exactly_once (W : Nat) : ∀ s : Store,
    (s.rows.map Row.id).Nodup →
    ((database.runClaimers s W).1.reduceOption.length =
      min W (pendingCount s)) ∧
    (((database.runClaimers s W).1.reduceOption.map Row.id).Nodup) ∧
    (∀ t ∈ (database.runClaimers s W).1.reduceOption,
      t ∈ s.rows ∧ t.status = "pending" ∧
      statusOf (database.runClaimers s W).2 t.id = some "running") ∧
    (pendingCount (database.runClaimers s W).2 + min W (pendingCount s) =
      pendingCount s) := by
  induction W with
  | zero =>
      intro s _
      refine ⟨by simp [database.runClaimers],
        by simp [database.runClaimers], ?_, by simp [database.runClaimers]⟩
      intro t ht
      simp [database.runClaimers, List.reduceOption] at ht
  | succ n ih =>
      intro s hnd
      rcases hfind : s.rows.find? (fun r => r.status == "pending") with _ | t
      · have hpc : pendingCount s = 0 := pendingCount_zero_of_find_none s hfind
        have hrun : database.runClaimers s (n + 1) =
            (none :: (database.runClaimers s n).1,
              (database.runClaimers s n).2) := by
          simp [database.runClaimers, fetch_eq_of_find_none s hfind]
        obtain ⟨ih1, ih2, ih3, ih4⟩ := ih s hnd
        rw [hrun]
        refine ⟨?_, ?_, ?_, ?_⟩
        · rw [List.reduceOption_cons_of_none, hpc]
          rw [hpc] at ih1
          simpa using ih1
        · rw [List.reduceOption_cons_of_none]
          exact ih2
        · rw [List.reduceOption_cons_of_none]
          exact ih3
        · rw [hpc] at ih4 ⊢
          simpa using ih4
      · have hpend : t.status = "pending" := by
          simpa using List.find?_some hfind
        have htmem : t ∈ s.rows := List.mem_of_find?_eq_some hfind
        have hrun : database.runClaimers s (n + 1) =
            (some t :: (database.runClaimers
              { s with rows := setStatus s.rows t.id "running" } n).1,
             (database.runClaimers
              { s with rows := setStatus s.rows t.id "running" } n).2) := by
          simp [database.runClaimers, fetch_eq_of_find_some s t hfind]
        have hnd1 : ((setStatus s.rows t.id "running").map Row.id).Nodup := by
          rw [setStatus_map_id]
          exact hnd
        have hcount : pendingCount
            { s with rows := setStatus s.rows t.id "running" } + 1 =
            pendingCount s :=
          countP_pending_setStatus t s.rows hnd hfind
        have hstat_s : statusOf s t.id = some t.status := by
          simp [statusOf, find?_id_of_mem s.rows hnd t htmem]
        have hrunstat : statusOf
            { s with rows := setStatus s.rows t.id "running" } t.id =
            some "running" := by
          have h := statusOf_setStatus s.rows s.nextId t.id t.id "running"
          rw [if_pos rfl] at h
          show statusOf ⟨setStatus s.rows t.id "running", s.nextId⟩ t.id =
            some "running"
          rw [h]
          have hs : statusOf ⟨s.rows, s.nextId⟩ t.id = some t.status := hstat_s
          rw [hs]
          rfl
        obtain ⟨ih1, ih2, ih3, ih4⟩ :=
          ih { s with rows := setStatus s.rows t.id "running" } hnd1
        rw [hrun]
        refine ⟨?_, ?_, ?_, ?_⟩
        · rw [List.reduceOption_cons_of_some, List.length_cons, ih1]
          omega
        · rw [List.reduceOption_cons_of_some, List.map_cons, List.nodup_cons]
          refine ⟨?_, ih2⟩
          intro hmem
          obtain ⟨t', ht'mem, ht'id⟩ := List.mem_map.mp hmem
          obtain ⟨hmem1, hpend1, _⟩ := ih3 t' ht'mem
          have hfid1 := find?_id_of_mem _ hnd1 t' hmem1
          have hst1 : statusOf
              { s with rows := setStatus s.rows t.id "running" } t'.id =
              some t'.status := by
            simp [statusOf, hfid1]
          rw [ht'id, hrunstat] at hst1
          rw [hpend1] at hst1
          have : "running" = "pending" := by
            injection hst1
          exact absurd this (by decide)
        · intro t' ht'
          rw [List.reduceOption_cons_of_some] at ht'
          rcases List.mem_cons.mp ht' with rfl | ht''
          · exact ⟨htmem, hpend,
              runClaimers_preserves_running n _ t'.id hrunstat⟩
          · obtain ⟨hmem1, hpend1, hstat1⟩ := ih3 t' ht''
            refine ⟨?_, hpend1, hstat1⟩
            simp only [setStatus] at hmem1
            obtain ⟨x, hx, hfx⟩ := List.mem_map.mp hmem1
            by_cases hxid : (x.id == t.id) = true
            · rw [if_pos hxid] at hfx
              rw [← hfx] at hpend1
              simp at hpend1
            · rw [if_neg hxid] at hfx
              rw [← hfx]
              exact hx
        · show pendingCount (database.runClaimers
              { s with rows := setStatus s.rows t.id "running" } n).2 +
              min (n + 1) (pendingCount s) = pendingCount s
          omega

/-- C1 witness: three claimers against the two-pending-row store claim
exactly min(3,2) = 2 records. -/
theorem claim_exactly_once_witness :
    ((database.runClaimers twoPendingStore 3).1.reduceOption.length =
      min 3 (pendingCount twoPendingStore)) ∧
    (((database.runClaimers twoPendingStore 3).1.reduceOption.map
      Row.id).Nodup) :=
  ⟨(claim_exactly_once 3 twoPendingStore (by decide)).1,
   (claim_exactly_once 3 twoPendingStore (by decide)).2.1⟩

/-! ## Lemmas for the dispatcher invariant -/

theorem find?_append_some (p : Row → Bool) : ∀ (l₁ l₂ : List Row) (a : Row),
    l₁.find? p = some a → (l₁ ++ l₂).find? p = some a := by
  intro l₁
  induction l₁ with
  | nil => intro l₂ a h; cases h
  | cons x rest ih =>
      intro l₂ a h
      by_cases hx : p x = true
      · rw [find?_cons_pos' p x rest hx] at h
        rw [List.cons_append, find?_cons_pos' p x _ hx]
        exact h
      · have hx' : p x = false := by simpa using hx
        rw [find?_cons_neg' p x rest hx'] at h
        rw [List.cons_append, find?_cons_neg' p x _ hx']
        exact ih l₂ a h

theorem statusOf_append (rows new : List Row) (nid nid' id : Nat) (x : String)
    (h : statusOf ⟨rows, nid⟩ id = some x) :
    statusOf ⟨rows ++ new, nid'⟩ id = some x := by
  unfold statusOf at h ⊢
  obtain ⟨r, hr, hx⟩ := Option.map_eq_some'.mp h
  rw [find?_append_some _ rows new r hr]
  simp [hx]

theorem map_id_of_pres (f : Row → Row) (h : ∀ r, (f r).id = r.id)
    (rows : List Row) : (rows.map f).map Row.id = rows.map Row.id := by
  rw [List.map_map]
  apply List.map_congr_left
  intro r _
  exact h r

theorem statusOf_mapWhere_ne (f : Row → Row) (tid : Nat)
    (hid : ∀ r, (f r).id = r.id) (hother : ∀ r, r.id ≠ tid → f r = r)
    (rows : List Row) (nid id : Nat) (hne : id ≠ tid) :
    statusOf ⟨rows.map f, nid⟩ id = statusOf ⟨rows, nid⟩ id := by
  unfold statusOf
  rw [find?_map_pres f hid]
  rcases hfind : rows.find? (fun r => r.id == id) with _ | r
  · rw [hfind]
    rfl
  · rw [hfind]
    have hr : r.id = id := by simpa using List.find?_some hfind
    have hfr : f r = r := hother r (by rw [hr]; exact hne)
    simp [hfr]

theorem statusOf_of_mem (s : Store) (hnd : (s.rows.map Row.id).Nodup)
    (r : Row) (hr : r ∈ s.rows) : statusOf s r.id = some r.status := by
  simp [statusOf, find?_id_of_mem s.rows hnd r hr]

theorem nodup_append_ids (rows new : List Row) (nid nid' : Nat)
    (hnd : (rows.map Row.id).Nodup)
    (hbound : ∀ r ∈ rows, r.id < nid)
    (hnew : ∀ x ∈ new, nid ≤ x.id)
    (hpair : new.Pairwise (fun a b => a.id < b.id)) :
    ((rows ++ new).map Row.id).Nodup := by
  rw [List.map_append, List.nodup_append]
  refine ⟨hnd, ?_, ?_⟩
  · have : (new.map Row.id).Pairwise (· < ·) :=
      List.pairwise_map.mpr hpair
    exact this.imp Nat.ne_of_lt
  · intro a ha hb
    obtain ⟨ra, hra, hraid⟩ := List.mem_map.mp ha
    obtain ⟨rb, hrb, hrbid⟩ := List.mem_map.mp hb
    have h1 : a < nid := hraid ▸ hbound ra hra
    have h2 : nid ≤ a := hrbid ▸ hnew rb hrb
    omega

theorem statusOf_append' (s s' : Store) (new : List Row)
    (hrows : s'.rows = s.rows ++ new) (id : Nat) (x : String)
    (h : statusOf s id = some x) : statusOf s' id = some x := by
  unfold statusOf at h ⊢
  rw [hrows]
  obtain ⟨r, hr, hx⟩ := Option.map_eq_some'.mp h
  rw [find?_append_some _ s.rows new r hr]
  simp [hx]

theorem statusOf_setStatus' (s s' : Store) (tid : Nat) (stStr : String)
    (hrows : s'.rows = setStatus s.rows tid stStr) (id : Nat) :
    statusOf s' id =
      if id = tid then (statusOf s id).map (fun _ => stStr)
      else statusOf s id := by
  have hid : ∀ r : Row,
      ((if r.id == tid then { r with status := stStr } else r) : Row).id =
        r.id := by
    intro r
    by_cases h : r.id = tid <;> simp [h]
  unfold statusOf
  rw [hrows]
  unfold setStatus
  rw [find?_map_pres _ hid]
  rcases hfind : s.rows.find? (fun r => r.id == id) with _ | r
  · rw [hfind]
    simp
  · rw [hfind]
    have hr : r.id = id := by simpa using List.find?_some hfind
    by_cases h : id = tid
    · subst h
      simp [hr]
    · have hne : (r.id == tid) = false := by simp [hr, h]
      simp [hne, hr, h]

/-- The per-row effect of the 'completed' UPDATE of
update_task_status_from_queue, named for use in proofs. -/
def completeAt (taskId : Nat) (path : Option String) (r : Row) : Row :=
  if some r.id = some taskId then
    { r with status := "completed", screenshot_path := path }
  else r

/-- The per-row effect of the 'failed' UPDATE of
update_task_status_from_queue, named for use in proofs. -/
def failAt (taskId : Nat) (r : Row) : Row :=
  if some r.id = some taskId then { r with status := "failed" } else r

theorem update_completed_eq (s : Store) (taskId : Nat)
    (path : Option String) :
    database.update_task_status_from_queue s
      { task_id := some taskId, status := some "completed",
        screenshot_path := path } =
      { s with rows := s.rows.map (completeAt taskId path) } := by
  simp [database.update_task_status_from_queue, completeAt]

theorem update_failed_eq (s : Store) (taskId : Nat) :
    database.update_task_status_from_queue s
      { task_id := some taskId, status := some "failed",
        screenshot_path := none } =
      { s with rows := s.rows.map (failAt taskId) } := by
  simp [database.update_task_status_from_queue, failAt]

theorem dispatchStep_preserves (st : DispatchState) (op : DispatchOp)
    (hinv : DispatchInv st) :
    DispatchInv (dispatchStep st op) ∧
    (∀ id x, statusOf st.store id = some x →
      (x = "completed" ∨ x = "failed") →
      statusOf (dispatchStep st op).store id = some x) := by
  obtain ⟨hnd, hbound, hcndp, hclm⟩ := hinv
  cases op with
  | insert batch =>
      obtain ⟨new, h1, _, h3, h4, h5⟩ :=
        execMany_spec hitOrderId batch st.store
      have hstep : dispatchStep st (DispatchOp.insert batch) =
          { st with store := (execMany hitOrderId st.store batch).1 } := rfl
      rw [hstep]
      refine ⟨⟨?_, ?_, hcndp, ?_⟩, ?_⟩
      · show (((execMany hitOrderId st.store batch).1.rows).map Row.id).Nodup
        rw [h1]
        exact nodup_append_ids st.store.rows new st.store.nextId
          (execMany hitOrderId st.store batch).1.nextId hnd hbound
          (fun x hx => (h4 x hx).2.2.1) h5
      · intro r hr
        rw [h1] at hr
        rcases List.mem_append.mp hr with h | h
        · exact lt_of_lt_of_le (hbound r h) h3
        · exact (h4 r h).2.2.2
      · intro id hid
        exact statusOf_append' st.store _ new h1 id "running" (hclm id hid)
      · intro id x hx _
        exact statusOf_append' st.store _ new h1 id x hx
  | claim =>
      rcases hfind : st.store.rows.find? (fun r => r.status == "pending")
        with _ | task
      · have hstep : dispatchStep st DispatchOp.claim = st := by
          simp [dispatchStep, fetch_eq_of_find_none st.store hfind]
        rw [hstep]
        exact ⟨⟨hnd, hbound, hcndp, hclm⟩, fun id x hx _ => hx⟩
      · have hstep : dispatchStep st DispatchOp.claim =
            { store := { st.store with
                rows := setStatus st.store.rows task.id "running" },
              claimed := task.id :: st.claimed } := by
          simp [dispatchStep, fetch_eq_of_find_some st.store task hfind]
        have hpend : task.status = "pending" := by
          simpa using List.find?_some hfind
        have htmem : task ∈ st.store.rows := List.mem_of_find?_eq_some hfind
        have hstat : statusOf st.store task.id = some "pending" := by
          have h := statusOf_of_mem st.store hnd task htmem
          rw [hpend] at h
          exact h
        have hsetSt := statusOf_setStatus' st.store
          { st.store with rows := setStatus st.store.rows task.id "running" }
          task.id "running" rfl
        have hidf : ∀ r : Row,
            ((if r.id == task.id then { r with status := "running" }
              else r) : Row).id = r.id := by
          intro r
          by_cases h : r.id = task.id <;> simp [h]
        rw [hstep]
        refine ⟨⟨?_, ?_, ?_, ?_⟩, ?_⟩
        · show ((setStatus st.store.rows task.id "running").map Row.id).Nodup
          rw [setStatus_map_id]
          exact hnd
        · intro r hr
          simp only [setStatus] at hr
          obtain ⟨x, hx, hfx⟩ := List.mem_map.mp hr
          have hxid : r.id = x.id := by
            rw [← hfx]
            exact hidf x
          rw [hxid]
          exact hbound x hx
        · refine List.nodup_cons.mpr ⟨?_, hcndp⟩
          intro hmem
          have h := hclm task.id hmem
          rw [hstat] at h
          simp at h
        · intro id hidm
          rcases List.mem_cons.mp hidm with rfl | hidm'
          · rw [hsetSt task.id, if_pos rfl, hstat]
            rfl
          · rw [hsetSt id]
            by_cases h : id = task.id
            · rw [if_pos h, h, hstat]
              rfl
            · rw [if_neg h]
              exact hclm id hidm'
        · intro id x hx hterm
          rw [hsetSt id]
          by_cases h : id = task.id
          · rw [h] at hx
            rw [hstat] at hx
            have hxp : x = "pending" := by
              have := Option.some.inj hx
              exact this.symm
            rcases hterm with h' | h' <;>
              (rw [hxp] at h'; exact absurd h' (by decide))
          · rw [if_neg h]
            exact hx
  | resolve taskId ok path =>
      by_cases hin : taskId ∈ st.claimed
      · have hTrun : statusOf st.store taskId = some "running" :=
          hclm taskId hin
        have hcore : ∀ f : Row → Row, (∀ r, (f r).id = r.id) →
            (∀ r, r.id ≠ taskId → f r = r) →
            DispatchInv
              { store := { st.store with rows := st.store.rows.map f },
                claimed := st.claimed.erase taskId } ∧
            (∀ id x, statusOf st.store id = some x →
              (x = "completed" ∨ x = "failed") →
              statusOf { st.store with rows := st.store.rows.map f } id =
                some x) := by
          intro f hidf hother
          refine ⟨⟨?_, ?_, hcndp.erase taskId, ?_⟩, ?_⟩
          · show ((st.store.rows.map f).map Row.id).Nodup
            rw [map_id_of_pres f hidf]
            exact hnd
          · intro r hr
            obtain ⟨x, hx, hfx⟩ := List.mem_map.mp hr
            have hxid : r.id = x.id := by
              rw [← hfx]
              exact hidf x
            rw [hxid]
            exact hbound x hx
          · intro id hidm
            have hmem := (List.Nodup.mem_erase_iff hcndp).mp hidm
            have heq := statusOf_mapWhere_ne f taskId hidf hother
              st.store.rows st.store.nextId id hmem.1
            exact heq.trans (hclm id hmem.2)
          · intro id x hx hterm
            have hne : id ≠ taskId := by
              intro he
              rw [he, hTrun] at hx
              have hxr : x = "running" := (Option.some.inj hx).symm
              rcases hterm with h' | h' <;>
                (rw [hxr] at h'; exact absurd h' (by decide))
            have heq := statusOf_mapWhere_ne f taskId hidf hother
              st.store.rows st.store.nextId id hne
            exact heq.trans hx
        cases ok with
        | true =>
            have hstep :
                dispatchStep st (DispatchOp.resolve taskId true path) =
                ⟨{ st.store with
                     rows := st.store.rows.map (completeAt taskId path) },
                 st.claimed.erase taskId⟩ := by
              simp only [dispatchStep, if_pos hin, if_true]
              rw [update_completed_eq]
            rw [hstep]
            exact hcore (completeAt taskId path)
              (fun r => by unfold completeAt; by_cases h : r.id = taskId <;>
                simp [h])
              (fun r h => by unfold completeAt; simp [h])
        | false =>
            have hstep :
                dispatchStep st (DispatchOp.resolve taskId false path) =
                ⟨{ st.store with rows := st.store.rows.map (failAt taskId) },
                 st.claimed.erase taskId⟩ := by
              simp only [dispatchStep, if_pos hin, Bool.false_eq_true,
                if_false]
              rw [update_failed_eq]
            rw [hstep]
            exact hcore (failAt taskId)
              (fun r => by unfold failAt; by_cases h : r.id = taskId <;>
                simp [h])
              (fun r h => by unfold failAt; simp [h])
      · have hstep : dispatchStep st (DispatchOp.resolve taskId ok path) =
            st := by
          simp [dispatchStep, hin]
        rw [hstep]
        exact ⟨⟨hnd, hbound, hcndp, hclm⟩, fun id x hx _ => hx⟩

theorem dispatchRun_preserves : ∀ (ops : List DispatchOp)
    (st : DispatchState), DispatchInv st →
    DispatchInv (dispatchRun st ops) ∧
    (∀ id x, statusOf st.store id = some x →
      (x = "completed" ∨ x = "failed") →
      statusOf (dispatchRun st ops).store id = some x) := by
  intro ops
  induction ops with
  | nil => intro st h; exact ⟨h, fun _ _ hx _ => hx⟩
  | cons op rest ih =>
      intro st h
      obtain ⟨h1, h2⟩ := dispatchStep_preserves st op h
      obtain ⟨h3, h4⟩ := ih (dispatchStep st op) h1
      exact ⟨h3, fun id x hx ht => h4 id x (h2 id x hx ht) ht⟩

theorem dispatchTrace_avoids_terminal : ∀ (ops : List DispatchOp)
    (st : DispatchState) (id : Nat), DispatchInv st →
    (statusOf st.store id = some "completed" ∨
      statusOf st.store id = some "failed") →
    ∀ t ∈ dispatchTrace st ops, t.id ≠ id := by
  intro ops
  induction ops with
  | nil =>
      intro st id _ _ t ht
      simp [dispatchTrace] at ht
  | cons op rest ih =>
      intro st id hinv hterm t ht
      obtain ⟨hstep_inv, hstep_pres⟩ := dispatchStep_preserves st op hinv
      have hterm' : statusOf (dispatchStep st op).store id =
          some "completed" ∨
          statusOf (dispatchStep st op).store id = some "failed" := by
        rcases hterm with h | h
        · exact Or.inl (hstep_pres id _ h (Or.inl rfl))
        · exact Or.inr (hstep_pres id _ h (Or.inr rfl))
      simp only [dispatchTrace] at ht
      rcases List.mem_append.mp ht with hhere | hrest
      · cases op with
        | insert batch => simp at hhere
        | resolve a b c => simp at hhere
        | claim =>
            rcases hfind : st.store.rows.find?
                (fun r => r.status == "pending") with _ | task
            · rw [show (database.fetch_pending_task st.store).1 = none from
                by rw [fetch_eq_of_find_none st.store hfind]] at hhere
              simp at hhere
            · rw [show (database.fetch_pending_task st.store).1 = some task
                from by rw [fetch_eq_of_find_some st.store task hfind]]
                at hhere
              simp at hhere
              subst hhere
              intro he
              have hpend : t.status = "pending" := by
                simpa using List.find?_some hfind
              have hstat := statusOf_of_mem st.store hinv.1 t
                (List.mem_of_find?_eq_some hfind)
              rw [hpend, he] at hstat
              rcases hterm with h | h <;> (rw [hstat] at h; simp at h)
      · exact ih (dispatchStep st op) id hstep_inv hterm' t hrest

/-- C4: against any dispatcher state satisfying the pipeline invariant,
once a row's status is 'completed' or 'failed' no sequence of pipeline
operations (inserts, claims, resolutions of claimed tasks) ever changes
that row's status again, no claim performed along the run ever returns that
row, and — unconditionally — a claim only ever returns a row whose status
was 'pending' (so it never selects a completed or failed record). -/
theorem terminal_status_invariant (st : DispatchState)
    (ops : List DispatchOp) (id : Nat) (hinv : DispatchInv st)
    (hterm : statusOf st.store id = some "completed" ∨
      statusOf st.store id = some "failed") :
    statusOf (dispatchRun st ops).store id = statusOf st.store id ∧
    (∀ t ∈ dispatchTrace st ops, t.id ≠ id) ∧
    (∀ (s' : Store) (t : Row),
      (database.fetch_pending_task s').1 = some t →
      t.status = "pending") := by
  refine ⟨?_, dispatchTrace_avoids_terminal ops st id hinv hterm, ?_⟩
  · rcases hterm with h | h
    · rw [h]
      exact (dispatchRun_preserves ops st hinv).2 id _ h (Or.inl rfl)
    · rw [h]
      exact (dispatchRun_preserves ops st hinv).2 id _ h (Or.inr rfl)
  · intro s' t hfetch
    rcases hfind : s'.rows.find? (fun r => r.status == "pending") with _ | u
    · rw [show (database.fetch_pending_task s').1 = none from
        by rw [fetch_eq_of_find_none s' hfind]] at hfetch
      cases hfetch
    · rw [show (database.fetch_pending_task s').1 = some u from
        by rw [fetch_eq_of_find_some s' u hfind]] at hfetch
      have hu : u = t := Option.some.inj hfetch
      rw [← hu]
      simpa using List.find?_some hfind

/-- A dispatcher state with one completed row (id 1), one pending row
(id 2) and no outstanding claims. -/
def demoDispatchState : DispatchState :=
  { store := { rows := [{ mkPendingRow 1 with status := "completed" },
                        mkPendingRow 2],
               nextId := 3 },
    claimed := [] }

/-- C4 witness: running a claim against the demo state leaves the completed
row's status untouched. -/
theorem terminal_status_invariant_witness :
    statusOf (dispatchRun demoDispatchState [DispatchOp.claim]).store 1 =
      statusOf demoDispatchState.store 1 :=
  (terminal_status_invariant demoDispatchState [DispatchOp.claim] 1
    (by unfold DispatchInv; exact ⟨by decide, by decide, by decide,
      by decide⟩)
    (Or.inl (by decide))).1

end Scraper
